import Mathlib

/-!
Verification of the cutils knspace module (src/cutils/knspace.py): a
hierarchical namespace binding system built on the kivy observable-object
runtime.  The embedding below models:

- KNSpace instances as records of per-instance observable slots (kivy
  properties created through apply_property), plain instance attributes
  (written by the plain object setattr branch), and the private
  has-applied set.  Namespaces live in a heap (a list indexed by
  reference id); heap index 0 is by convention the module-level root
  namespace created at import time.
- Python attribute lookup on a KNSpace: per-instance observable slots
  first, then plain instance attributes, then KNSpace class attributes,
  and finally the getattr fallback hook, which delegates to the parent
  namespace (the plain attribute named parent, written by the
  constructor) or raises AttributeError.
- The external kivy contract used by the source: the base
  EventDispatcher property lookup returns an existing per-instance
  property, returns None for a missing one when quiet is true, and
  raises when quiet is false (documented kivy behavior);
  apply_property installs a per-instance property; objects expose a
  proxy_ref weak proxy, an object distinct from the entity itself whose
  equality comparison forwards to the referent.
- KNSpaceBehavior entities as records of the explicit namespace
  override, stored name, cached last resolved namespace, namespace key
  and structural attributes; the structural world that the namespace
  resolution walk visits is a list of plain objects which may or may
  not expose a knspace value.

Machine-level reference identity is modeled by heap or object ids plus,
for entities, a proxy flag: the weak proxy of entity i is a different
runtime object than the entity itself, but compares equal to it.
-/

namespace Cutils

/-- A runtime value stored in a namespace attribute: the Python None, an
entity reference (with a flag recording whether this reference is the
entity's weak proxy_ref), a namespace reference by heap index, or a
bound method (a class attribute). -/
inductive Value where
  | none : Value
  | ent : Nat → Bool → Value
  | nsp : Nat → Value
  | method : Value
deriving DecidableEq, Repr

/-- The source expression getattr(value, 'proxy_ref', value): an entity
exposes its weak proxy (kivy EventDispatcher.proxy_ref); a proxy
forwards the attribute access to its referent and yields the proxy
again; other values (None, namespaces here) have no proxy_ref and are
returned unchanged. -/
def proxyOf : Value → Value
  | .ent i _ => .ent i true
  | v => v

/-- Python equality on stored values: entities compare by object
identity, and a weak proxy forwards the comparison to its referent, so
any two references to the same entity compare equal; None equals only
None; namespaces compare by reference. -/
def pyEq : Value → Value → Bool
  | .ent i _, .ent j _ => i == j
  | .none, .none => true
  | .nsp i, .nsp j => i == j
  | .method, .method => true
  | _, _ => false

/-- Association list lookup (first binding wins), used for instance
dictionaries and per-instance property tables. -/
def alookup {α : Type} : List (String × α) → String → Option α
  | [], _ => Option.none
  | (k, v) :: t, n => if k = n then Option.some v else alookup t n

/-- Association list update: overwrite the first binding of the key, or
append a new binding when the key is absent. -/
def aset {α : Type} : List (String × α) → String → α → List (String × α)
  | [], n, v => [(n, v)]
  | (k, u) :: t, n, v => if k = n then (n, v) :: t else (k, u) :: aset t n v

/-- State of one KNSpace instance: slots is the table of per-instance
observable properties (name and current value) created through
apply_property; plain is the instance dictionary written by the plain
object setattr branch (the constructor stores the parent namespace
there); hasApplied is the private set of names already converted to
observable slots. -/
structure NSpace where
  slots : List (String × Value)
  plain : List (String × Value)
  hasApplied : List String
deriving DecidableEq, Repr

/-- KNSpace.__init__: no observable slots yet, the parent argument
stored as the plain instance attribute parent, empty has-applied set. -/
def mkKNSpace (parent : Option Nat) : NSpace :=
  { slots := []
    plain := [("parent", match parent with
      | Option.some p => Value.nsp p
      | Option.none => Value.none)]
    hasApplied := [] }

/-- Result of a Python attribute read: a value, or AttributeError. -/
inductive GetR where
  | ok : Value → GetR
  | err : GetR
deriving DecidableEq, Repr

/-- KNSpace class attributes visible to ordinary attribute lookup: the
class default parent = None and the methods defined by the class. -/
def classAttr (name : String) : Option Value :=
  if name = "parent" then Option.some Value.none
  else if name = "clone" ∨ name = "property" ∨ name = "apply_property" then
    Option.some Value.method
  else Option.none

/-- Python attribute lookup on the KNSpace at heap index i: per-instance
observable slots, then the plain instance dictionary, then class
attributes, and finally KNSpace.__getattr__, which reads self.parent
(the plain attribute written by the constructor), raises AttributeError
when it is None, and otherwise delegates the whole lookup to the parent
namespace.  The fuel argument bounds the length of the parent chain
walked; exhausted fuel is reported as AttributeError (a parent cycle
would make the source loop forever, and the theorems below always
supply enough fuel). -/
def nsGetattr (h : List NSpace) : Nat → Nat → String → GetR
  | 0, _, _ => .err
  | fuel + 1, i, name =>
    match h[i]? with
    | Option.none => .err
    | Option.some ns =>
      match alookup ns.slots name with
      | Option.some v => .ok v
      | Option.none =>
        match alookup ns.plain name with
        | Option.some v => .ok v
        | Option.none =>
          match classAttr name with
          | Option.some v => .ok v
          | Option.none =>
            match alookup ns.plain "parent" with
            | Option.some (Value.nsp p) => nsGetattr h fuel p name
            | _ => .err

/-- Python hasattr on a KNSpace: the attribute lookup, including the
parent-chain delegation of the getattr hook, does not raise. -/
def nsHasattr (h : List NSpace) (fuel i : Nat) (name : String) : Bool :=
  match nsGetattr h fuel i name with
  | .ok _ => true
  | .err => false

/-- KNSpace.__setattr__(name, value) on the namespace at heap index i.
First the base-class property lookup (quiet) checks for an existing
per-instance observable slot.  With no slot: when hasattr sees the name
anywhere (plain attribute, class attribute, or through the parent
chain), the raw value is stored as a plain instance attribute; otherwise
the value is replaced by its proxy_ref and a fresh observable slot is
created with it, recording the name in the has-applied set.  With an
existing slot, the value is replaced by its proxy_ref and stored in the
slot, re-recording the name in the has-applied set if it was missing
there. -/
def nsSetattr (h : List NSpace) (fuel i : Nat) (name : String) (value : Value) :
    List NSpace :=
  match h[i]? with
  | Option.none => h
  | Option.some ns =>
    match alookup ns.slots name with
    | Option.none =>
      if nsHasattr h fuel i name then
        h.set i { ns with plain := aset ns.plain name value }
      else
        h.set i { ns with
          slots := aset ns.slots name (proxyOf value)
          hasApplied := name :: ns.hasApplied }
    | Option.some _ =>
      if name ∈ ns.hasApplied then
        h.set i { ns with slots := aset ns.slots name (proxyOf value) }
      else
        h.set i { ns with
          slots := aset ns.slots name (proxyOf value)
          hasApplied := name :: ns.hasApplied }

/-- KNSpace.property(name, quiet) on the namespace at heap index i: the
base-class lookup returns an existing per-instance slot (heap
unchanged); for a missing slot it returns None when quiet is true,
letting this method create a fresh observable slot initialized to None
and record the name, and raises when quiet is false (the raise is the
Option.none result).  The parent namespace is never consulted. -/
def nsProperty (h : List NSpace) (i : Nat) (name : String) (quiet : Bool) :
    Option (List NSpace) :=
  match h[i]? with
  | Option.none => Option.none
  | Option.some ns =>
    match alookup ns.slots name with
    | Option.some _ => Option.some h
    | Option.none =>
      if quiet then
        Option.some (h.set i { ns with
          slots := aset ns.slots name Value.none
          hasApplied := name :: ns.hasApplied })
      else Option.none

/-- KNSpace.clone(): allocate a fresh KNSpace whose parent is this
namespace; the new heap and the new namespace's reference. -/
def cloneNS (h : List NSpace) (n : Nat) : List NSpace × Nat :=
  (h ++ [mkKNSpace (Option.some n)], h.length)

/-- The predicate behind the unresolved-name error: the name has no
observable slot, no plain attribute and no class attribute anywhere
along the parent chain starting at index i (within the given fuel). -/
def absentAll (h : List NSpace) : Nat → Nat → String → Bool
  | 0, _, _ => false
  | fuel + 1, i, name =>
    match h[i]? with
    | Option.none => true
    | Option.some ns =>
      (alookup ns.slots name).isNone &&
      (alookup ns.plain name).isNone &&
      (classAttr name).isNone &&
      (match alookup ns.plain "parent" with
       | Option.some (Value.nsp p) => absentAll h fuel p name
       | _ => true)

/-- A structural object visited by the namespace resolution walk: kn is
its knspace attribute (Option.none when the object does not expose the
concept of a namespace at all, Option.some v when it exposes the value
v, where v itself may be the Python None); attrs are its other
attributes (structural links to further objects, by index in the object
world). -/
structure WObj where
  kn : Option (Option Nat)
  attrs : List (String × Nat)
deriving DecidableEq, Repr

/-- State of a KNSpaceBehavior entity: its object identity, the
explicit namespace override _knspace (the kivy ObjectProperty, None
when unset), the stored name _name, the private cached last resolved
namespace, the knspace_key naming the structural-parent attribute, and
the entity's own structural attributes (where the walk starts). -/
structure Entity where
  eid : Nat
  _knspace : Option Nat
  _name : String
  lastKnspace : Option Nat
  knspace_key : String
  attrs : List (String × Nat)
deriving DecidableEq, Repr

/-- Result of the resolution walk over the structural-parent chain:
found v when an ancestor exposes the knspace value v (the tri-state
found case, v may be the Python None), exhausted when the chain ends
without any ancestor exposing a namespace, fuelOut when the fuel bound
was reached first (a structural cycle makes the source loop forever;
theorems about the walk rule this case out). -/
inductive WalkR where
  | found : Option Nat → WalkR
  | exhausted : WalkR
  | fuelOut : WalkR
deriving DecidableEq, Repr

/-- The while loop of KNSpaceBehavior._get_knspace: starting from the
value of the entity's knspace_key attribute, at each ancestor read
getattr(parent, 'knspace', 0); a present knspace attribute (whatever
its value, None included) is returned at once, a missing one moves the
walk to that ancestor's own knspace_key attribute; a chain end (the
attribute missing, Python None) exhausts the walk. -/
def walkK (w : List WObj) (key : String) : Nat → Option Nat → WalkR
  | _, Option.none => .exhausted
  | 0, Option.some _ => .fuelOut
  | fuel + 1, Option.some p =>
    match w[p]? with
    | Option.none => .exhausted
    | Option.some o =>
      match o.kn with
      | Option.some v => .found v
      | Option.none => walkK w key fuel (alookup o.attrs key)

/-- KNSpaceBehavior._get_knspace: an explicit override is returned
directly (no cache update); with an empty knspace_key the module root
namespace (heap index 0) is returned and cached; otherwise the
structural walk runs, a found value (even the Python None) is returned
and cached, and an exhausted chain falls back to the cached module
root.  The fuelOut walk result is mapped to the root fallback only to
keep the function total; theorems that depend on the walk hypothesize
that it does not occur. -/
def resolveK (w : List WObj) (fuel : Nat) (e : Entity) : Option Nat × Entity :=
  match e._knspace with
  | Option.some n => (Option.some n, e)
  | Option.none =>
    if e.knspace_key = "" then
      (Option.some 0, { e with lastKnspace := Option.some 0 })
    else
      match walkK w e.knspace_key fuel (alookup e.attrs e.knspace_key) with
      | .found v => (v, { e with lastKnspace := v })
      | _ => (Option.some 0, { e with lastKnspace := Option.some 0 })

/-- Python exceptions raised by the entity operations: ValueError (the
inconsistent-name-state and no-source-to-clone errors) and
AttributeError (unresolved names). -/
inductive Err where
  | valueErr : Err
  | attrErr : Err
deriving DecidableEq, Repr

/-- Argument to the knspace setter: a namespace reference or the Python
None (the ObjectProperty value), or the distinguished string 'clone'. -/
inductive KnsArg where
  | val : Option Nat → KnsArg
  | clone : KnsArg
deriving DecidableEq, Repr

/-- State after an entity mutation: the namespace heap, the entity, and
the exception the call raised, if any (the heap and entity fields hold
the state at the moment of the raise). -/
structure StepR where
  h : List NSpace
  e : Entity
  err : Option Err
deriving DecidableEq, Repr

/-- KNSpaceBehavior._set_name(value): read self.knspace (resolution,
with its cache effect); when the old name is non-empty and the resolved
namespace truthy, clear the old binding there; store the new name; a
non-empty new name is then registered in the resolved namespace, or
ValueError is raised when there is none. -/
def setName (w : List WObj) (fuel : Nat) (h : List NSpace) (e : Entity)
    (value : String) : StepR :=
  let old := e._name
  let r := resolveK w fuel e
  let h₁ := match r.1 with
    | Option.some n => if old ≠ "" then nsSetattr h fuel n old Value.none else h
    | Option.none => h
  let e₂ := { r.2 with _name := value }
  if value = "" then ⟨h₁, e₂, Option.none⟩
  else
    match r.1 with
    | Option.some n => ⟨nsSetattr h₁ fuel n value (Value.ent e.eid false), e₂, Option.none⟩
    | Option.none => ⟨h₁, e₂, Option.some Err.valueErr⟩

/-- KNSpaceBehavior._set_knspace(value): read self.knspace; when the
entity is named and the resolved namespace truthy, set the old binding
there to None; a 'clone' argument is replaced by a clone of the
resolved namespace (ValueError when there is none); the result is
stored in both the cache and the explicit override; a named entity is
then re-registered in the new resolved namespace, or ValueError is
raised when that resolution is not truthy. -/
def setKnspace (w : List WObj) (fuel : Nat) (h : List NSpace) (e : Entity)
    (value : KnsArg) : StepR :=
  let r := resolveK w fuel e
  let name := e._name
  let h₁ := match r.1 with
    | Option.some n => if name ≠ "" then nsSetattr h fuel n name Value.none else h
    | Option.none => h
  match (match value with
    | KnsArg.clone =>
      match r.1 with
      | Option.some n => Sum.inl (cloneNS h₁ n)
      | Option.none => Sum.inr (⟨h₁, r.2, Option.some Err.valueErr⟩ : StepR)
    | KnsArg.val v => Sum.inl (h₁, v.getD 0)) with
  | Sum.inr s => s
  | Sum.inl (h₂, newRef) =>
    let newVal : Option Nat := match value with
      | KnsArg.clone => Option.some newRef
      | KnsArg.val v => v
    let e₂ := { r.2 with lastKnspace := newVal, _knspace := newVal }
    if name = "" then ⟨h₂, e₂, Option.none⟩
    else
      let r₂ := resolveK w fuel e₂
      match r₂.1 with
      | Option.some n₂ =>
        ⟨nsSetattr h₂ fuel n₂ name (Value.ent e.eid false), r₂.2, Option.none⟩
      | Option.none => ⟨h₂, r₂.2, Option.some Err.valueErr⟩

/-- KNSpaceBehavior.__exchange_nspace(new_knspace): nothing happens when
the new namespace is reference-identical to the cached one; otherwise
the cache is updated, an anonymous entity stops, a named one is
registered in the new namespace when that is truthy, and then the old
binding is cleared when getattr(last, name) still compares equal to
this entity (reading the name on the previously cached namespace, which
raises AttributeError when that cache is None or the name is
unresolvable there). -/
def exchangeNspace (h : List NSpace) (fuel : Nat) (e : Entity)
    (new : Option Nat) : StepR :=
  let last := e.lastKnspace
  if last = new then ⟨h, e, Option.none⟩
  else
    let e₁ := { e with lastKnspace := new }
    let name := e._name
    if name = "" then ⟨h, e₁, Option.none⟩
    else
      let h₁ := match new with
        | Option.some m => nsSetattr h fuel m name (Value.ent e.eid false)
        | Option.none => h
      match last with
      | Option.none => ⟨h₁, e₁, Option.some Err.attrErr⟩
      | Option.some l =>
        match nsGetattr h₁ fuel l name with
        | GetR.err => ⟨h₁, e₁, Option.some Err.attrErr⟩
        | GetR.ok occ =>
          if pyEq (Value.ent e.eid false) occ then
            ⟨nsSetattr h₁ fuel l name Value.none, e₁, Option.none⟩
          else ⟨h₁, e₁, Option.none⟩

/-! Helper lemmas about the embedding. -/

theorem alookup_aset_self {α : Type} (l : List (String × α)) (k : String) (v : α) :
    alookup (aset l k v) k = Option.some v := by
  induction l with
  | nil => simp [aset, alookup]
  | cons p t ih =>
    obtain ⟨k₀, u⟩ := p
    by_cases hk : k₀ = k
    · simp [aset, hk, alookup]
    · simp [aset, hk, alookup, ih]

theorem alookup_aset_ne {α : Type} (l : List (String × α)) (k k₂ : String) (v : α)
    (hne : k₂ ≠ k) : alookup (aset l k v) k₂ = alookup l k₂ := by
  induction l with
  | nil => simp [aset, alookup, Ne.symm hne]
  | cons p t ih =>
    obtain ⟨k₀, u⟩ := p
    by_cases hk : k₀ = k
    · subst hk
      simp [aset, alookup, Ne.symm hne]
    · simp only [aset, if_neg hk]
      by_cases hq : k₀ = k₂
      · simp [alookup, hq]
      · simp [alookup, hq, ih]

theorem nsSetattr_length (h : List NSpace) (fuel i : Nat) (name : String) (v : Value) :
    (nsSetattr h fuel i name v).length = h.length := by
  unfold nsSetattr
  split
  · rfl
  · split
    · split <;> simp [List.length_set]
    · split <;> simp [List.length_set]

theorem nsSetattr_getElem_ne (h : List NSpace) (fuel i j : Nat) (name : String)
    (v : Value) (hne : i ≠ j) : (nsSetattr h fuel i name v)[j]? = h[j]? := by
  unfold nsSetattr
  split
  · rfl
  · split
    · split <;> exact List.getElem?_set_ne hne
    · split <;> exact List.getElem?_set_ne hne

/-- Writing to an existing observable slot stores the proxy_ref of the
value in that slot, on the instance itself. -/
theorem nsGetattr_nsSetattr_slot (h : List NSpace) (fuel i : Nat) (name : String)
    (v : Value) (ns : NSpace) (u : Value) (hi : i < h.length)
    (hg : h[i]? = Option.some ns) (hs : alookup ns.slots name = Option.some u) :
    nsGetattr (nsSetattr h fuel i name v) 1 i name = GetR.ok (proxyOf v) := by
  unfold nsSetattr
  simp only [hg, hs]
  by_cases hm : name ∈ ns.hasApplied <;>
    simp [hm, nsGetattr, List.getElem?_set_eq_of_lt _ hi, alookup_aset_self]

/-- With no slot and the name reachable as an attribute (hasattr), the
raw value is stored as a plain instance attribute and a local read
returns exactly it. -/
theorem nsGetattr_nsSetattr_plain (h : List NSpace) (fuel i : Nat) (name : String)
    (v : Value) (ns : NSpace) (hi : i < h.length)
    (hg : h[i]? = Option.some ns) (hs : alookup ns.slots name = Option.none)
    (hh : nsHasattr h fuel i name = true) :
    nsGetattr (nsSetattr h fuel i name v) 1 i name = GetR.ok v := by
  unfold nsSetattr
  simp only [hg, hs, hh, if_true]
  simp [nsGetattr, List.getElem?_set_eq_of_lt _ hi, hs, alookup_aset_self]

/-- With no slot and the name unreachable, a fresh slot is created
holding the proxy_ref of the value, and a local read returns it. -/
theorem nsGetattr_nsSetattr_fresh (h : List NSpace) (fuel i : Nat) (name : String)
    (v : Value) (ns : NSpace) (hi : i < h.length)
    (hg : h[i]? = Option.some ns) (hs : alookup ns.slots name = Option.none)
    (hh : nsHasattr h fuel i name = false) :
    nsGetattr (nsSetattr h fuel i name v) 1 i name = GetR.ok (proxyOf v) := by
  unfold nsSetattr
  simp only [hg, hs, hh, Bool.false_eq_true, if_false]
  simp [nsGetattr, List.getElem?_set_eq_of_lt _ hi, alookup_aset_self]

/-- Every write through KNSpace.__setattr__ lands on the instance
itself: a read of the written name on that instance sees either the raw
value (the plain-attribute branch) or its proxy_ref (the observable
slot branches), with no delegation to the parent chain (the read needs
only one unit of fuel). -/
theorem nsGetattr_nsSetattr_self (h : List NSpace) (fuel i : Nat) (name : String)
    (v : Value) (hi : i < h.length) :
    nsGetattr (nsSetattr h fuel i name v) 1 i name = GetR.ok v ∨
    nsGetattr (nsSetattr h fuel i name v) 1 i name = GetR.ok (proxyOf v) := by
  obtain ⟨ns, hg⟩ : ∃ ns, h[i]? = Option.some ns := ⟨h[i], List.getElem?_eq_getElem hi⟩
  cases hs : alookup ns.slots name with
  | none =>
    cases hh : nsHasattr h fuel i name with
    | true => exact Or.inl (nsGetattr_nsSetattr_plain h fuel i name v ns hi hg hs hh)
    | false => exact Or.inr (nsGetattr_nsSetattr_fresh h fuel i name v ns hi hg hs hh)
  | some u => exact Or.inr (nsGetattr_nsSetattr_slot h fuel i name v ns u hi hg hs)

/-- A name absent (no slot, no plain attribute, no class attribute)
along the whole parent chain makes the lookup raise AttributeError: the
unresolved-name error. -/
theorem nsGetattr_of_absentAll (h : List NSpace) :
    ∀ (fuel i : Nat) (name : String), absentAll h fuel i name = true →
      nsGetattr h fuel i name = GetR.err := by
  intro fuel
  induction fuel with
  | zero => intro i name _; rfl
  | succ f ih =>
    intro i name ha
    unfold absentAll at ha
    unfold nsGetattr
    cases hg : h[i]? with
    | none => rfl
    | some ns =>
      rw [hg] at ha
      simp only [Bool.and_eq_true, Option.isNone_iff_eq_none] at ha
      obtain ⟨⟨⟨h1, h2⟩, h3⟩, h4⟩ := ha
      simp only [h1, h2, h3]
      cases hp : alookup ns.plain "parent" with
      | none => rfl
      | some pv =>
        rw [hp] at h4
        cases pv with
        | nsp p => exact ih p name h4
        | none => rfl
        | ent a b => rfl
        | method => rfl

/-- The value of the namespace resolution does not depend on the stored
name or on the cached last resolved namespace, only on the explicit
override, the knspace_key, and the structural attributes. -/
theorem resolveK_fst_congr (w : List WObj) (fuel : Nat) (e e₂ : Entity)
    (h1 : e₂._knspace = e._knspace) (h2 : e₂.knspace_key = e.knspace_key)
    (h3 : e₂.attrs = e.attrs) :
    (resolveK w fuel e₂).1 = (resolveK w fuel e).1 := by
  unfold resolveK
  rw [h1, h2, h3]
  cases hk : e._knspace with
  | some n => simp [hk]
  | none =>
    by_cases hq : e.knspace_key = ""
    · simp [hq]
    · simp only [hq, if_false]
      cases hw : walkK w e.knspace_key fuel (alookup e.attrs e.knspace_key) <;> simp [hw]

/-- Resolution only ever rewrites the cache field of the entity. -/
theorem resolveK_snd_fields (w : List WObj) (fuel : Nat) (e : Entity) :
    ((resolveK w fuel e).2)._knspace = e._knspace ∧
    ((resolveK w fuel e).2).knspace_key = e.knspace_key ∧
    ((resolveK w fuel e).2).attrs = e.attrs ∧
    ((resolveK w fuel e).2)._name = e._name ∧
    ((resolveK w fuel e).2).eid = e.eid := by
  unfold resolveK
  cases hk : e._knspace with
  | some n => simp [hk]
  | none =>
    by_cases hq : e.knspace_key = ""
    · simp [hq]
    · simp only [hq, if_false]
      cases hw : walkK w e.knspace_key fuel (alookup e.attrs e.knspace_key) <;> simp [hw]

/-- Clearing a name (writing the Python None) always lands locally and
reads back as None: proxyOf None is None, so both write branches
coincide. -/
theorem nsGetattr_nsSetattr_none (h : List NSpace) (fuel i : Nat) (name : String)
    (hi : i < h.length) :
    nsGetattr (nsSetattr h fuel i name Value.none) 1 i name = GetR.ok Value.none := by
  rcases nsGetattr_nsSetattr_self h fuel i name Value.none hi with hm | hm <;>
    simpa [proxyOf] using hm

/-- Shape of a successful non-empty rename: clear the old binding when
the entity was named, then register the entity under the new name, and
store the new name on the entity. -/
theorem setName_some (w : List WObj) (fuel : Nat) (h : List NSpace) (e : Entity)
    (v : String) (n : Nat) (hres : (resolveK w fuel e).1 = Option.some n)
    (hv : v ≠ "") :
    setName w fuel h e v =
      ⟨nsSetattr (if e._name = "" then h else nsSetattr h fuel n e._name Value.none)
          fuel n v (Value.ent e.eid false),
        { (resolveK w fuel e).2 with _name := v }, Option.none⟩ := by
  by_cases ho : e._name = "" <;> simp [setName, hres, hv, ho]

/-- Shape of clearing the name with a resolved namespace: the old
binding is reset, the stored name becomes empty, no error. -/
theorem setName_clear (w : List WObj) (fuel : Nat) (h : List NSpace) (e : Entity)
    (n : Nat) (hres : (resolveK w fuel e).1 = Option.some n) :
    setName w fuel h e "" =
      ⟨if e._name = "" then h else nsSetattr h fuel n e._name Value.none,
        { (resolveK w fuel e).2 with _name := "" }, Option.none⟩ := by
  by_cases ho : e._name = "" <;> simp [setName, hres, ho]

/-- The namespace heap keeps its length through a rename. -/
theorem setName_length (w : List WObj) (fuel : Nat) (h : List NSpace) (e : Entity)
    (v : String) : (setName w fuel h e v).h.length = h.length := by
  unfold setName
  cases hres : (resolveK w fuel e).1 <;> by_cases hv : v = "" <;>
    by_cases ho : e._name = "" <;> simp [hres, hv, ho, nsSetattr_length]

/-- Shape of an explicit namespace assignment to an actual namespace,
for a named entity with a currently resolved namespace: the old binding
is cleared in the old namespace unconditionally, the override and cache
are stored, and the entity is registered in the new namespace. -/
theorem setKnspace_val (w : List WObj) (fuel : Nat) (h : List NSpace) (e : Entity)
    (n m : Nat) (hres : (resolveK w fuel e).1 = Option.some n)
    (hname : e._name ≠ "") :
    setKnspace w fuel h e (KnsArg.val (Option.some m)) =
      ⟨nsSetattr (nsSetattr h fuel n e._name Value.none) fuel m e._name
          (Value.ent e.eid false),
        { (resolveK w fuel e).2 with
            lastKnspace := Option.some m, _knspace := Option.some m },
        Option.none⟩ := by
  have hsub : ∀ e₂ : Entity, e₂._knspace = Option.some m →
      resolveK w fuel e₂ = (Option.some m, e₂) := by
    intro e₂ hk
    simp [resolveK, hk]
  simp [setKnspace, hres, hname, hsub]

/-- C5 counterexample: an entity named a, whose structural parent
exposes knspace = None (so no namespace is resolvable), is renamed to
b.  The call raises the inconsistent-name-state ValueError and leaves
every namespace binding unchanged, but contrary to the claim the
stored name has already been updated to b when the error is raised. -/
theorem c5_counterexample :
    (setName [⟨Option.some Option.none, []⟩] 3 [mkKNSpace Option.none]
        ⟨1, Option.none, "a", Option.none, "parent", [("parent", 0)]⟩ "b").err =
      Option.some Err.valueErr ∧
    (setName [⟨Option.some Option.none, []⟩] 3 [mkKNSpace Option.none]
        ⟨1, Option.none, "a", Option.none, "parent", [("parent", 0)]⟩ "b").e._name = "b" ∧
    (setName [⟨Option.some Option.none, []⟩] 3 [mkKNSpace Option.none]
        ⟨1, Option.none, "a", Option.none, "parent", [("parent", 0)]⟩ "b").e._name ≠ "a" ∧
    (setName [⟨Option.some Option.none, []⟩] 3 [mkKNSpace Option.none]
        ⟨1, Option.none, "a", Option.none, "parent", [("parent", 0)]⟩ "b").h =
      [mkKNSpace Option.none] := by decide

/-- C5 (amended): assigning a non-empty name with no resolvable
namespace raises the inconsistent-name-state ValueError and leaves the
whole namespace heap (in particular the previous namespace's binding
for the old name) unchanged; the entity's stored name, however, is
updated to the new name before the error is raised. -/
theorem c5_name_error_partial_state (w : List WObj) (fuel : Nat) (h : List NSpace)
    (e : Entity) (v : String) (hv : v ≠ "")
    (hres : (resolveK w fuel e).1 = Option.none) :
    setName w fuel h e v =
      ⟨h, { (resolveK w fuel e).2 with _name := v }, Option.some Err.valueErr⟩ := by
  simp [setName, hres, hv]

/-- C5 witness. -/
theorem c5_name_error_partial_state_witness :
    setName [⟨Option.some Option.none, []⟩] 3 [mkKNSpace Option.none]
        ⟨1, Option.none, "a", Option.none, "parent", [("parent", 0)]⟩ "b" =
      ⟨[mkKNSpace Option.none],
        ⟨1, Option.none, "b", Option.none, "parent", [("parent", 0)]⟩,
        Option.some Err.valueErr⟩ := by
  have := c5_name_error_partial_state [⟨Option.some Option.none, []⟩] 3
    [mkKNSpace Option.none]
    ⟨1, Option.none, "a", Option.none, "parent", [("parent", 0)]⟩ "b"
    (by decide) (by decide)
  simpa [resolveK, walkK, alookup] using this

/-- C7 counterexample: a fresh entity with id 1 registered under n in
the root namespace.  The lookup returns the stored weak proxy of the
entity, which compares equal to the entity but is a different runtime
object, so the is-identity stated by the claim fails. -/
theorem c7_counterexample :
    (setName [] 3 [mkKNSpace Option.none]
        ⟨1, Option.some 0, "", Option.none, "parent", []⟩ "n").err = Option.none ∧
    nsGetattr (setName [] 3 [mkKNSpace Option.none]
        ⟨1, Option.some 0, "", Option.none, "parent", []⟩ "n").h 1 0 "n" =
      GetR.ok (Value.ent 1 true) ∧
    Value.ent 1 true ≠ Value.ent 1 false ∧
    pyEq (Value.ent 1 true) (Value.ent 1 false) = true := by decide

/-- C7 (amended): after a successful setName(n) with resolvable
namespace N, the value N.get(n) compares equal to the entity E under
Python equality (it is E itself in the plain-attribute branch and E's
weak proxy in the observable-slot branches), but it is not
reference-identical to E in general. -/
theorem c7_registration_equal_not_identical (w : List WObj) (fuel : Nat)
    (h : List NSpace) (e : Entity) (v : String) (n : Nat) (hv : v ≠ "")
    (hres : (resolveK w fuel e).1 = Option.some n) (hn : n < h.length) :
    (setName w fuel h e v).err = Option.none ∧
    ∃ u, nsGetattr (setName w fuel h e v).h 1 n v = GetR.ok u ∧
      pyEq u (Value.ent e.eid false) = true := by
  rw [setName_some w fuel h e v n hres hv]
  refine ⟨rfl, ?_⟩
  have hlen : n < (if e._name = "" then h
      else nsSetattr h fuel n e._name Value.none).length := by
    split
    · exact hn
    · rw [nsSetattr_length]
      exact hn
  rcases nsGetattr_nsSetattr_self
      (if e._name = "" then h else nsSetattr h fuel n e._name Value.none)
      fuel n v (Value.ent e.eid false) hlen with hm | hm
  · exact ⟨Value.ent e.eid false, hm, by simp [pyEq]⟩
  · exact ⟨Value.ent e.eid true, by simpa [proxyOf] using hm, by simp [pyEq]⟩

/-- C7 witness. -/
theorem c7_registration_equal_not_identical_witness :
    (setName [] 3 [mkKNSpace Option.none]
        ⟨1, Option.some 0, "", Option.none, "parent", []⟩ "n").err = Option.none ∧
    ∃ u, nsGetattr (setName [] 3 [mkKNSpace Option.none]
        ⟨1, Option.some 0, "", Option.none, "parent", []⟩ "n").h 1 0 "n" =
      GetR.ok u ∧ pyEq u (Value.ent 1 false) = true :=
  c7_registration_equal_not_identical [] 3 [mkKNSpace Option.none]
    ⟨1, Option.some 0, "", Option.none, "parent", []⟩ "n" 0
    (by decide) (by decide) (by decide)

/-- C1 counterexample: entities 1 and 2, both with explicit namespace 0
(the root), are named foo in that order; the binding is then the weak
proxy of entity 2 (so not reference-identical to it); clearing entity
1's name afterwards resets the binding to None, contrary to the claim
that the current occupant's binding survives. -/
theorem c1_counterexample :
    nsGetattr (setName [] 3 (setName [] 3 [mkKNSpace Option.none]
        ⟨1, Option.some 0, "", Option.none, "parent", []⟩ "foo").h
        ⟨2, Option.some 0, "", Option.none, "parent", []⟩ "foo").h 1 0 "foo" =
      GetR.ok (Value.ent 2 true) ∧
    Value.ent 2 true ≠ Value.ent 2 false ∧
    nsGetattr (setName [] 3 (setName [] 3 (setName [] 3 [mkKNSpace Option.none]
        ⟨1, Option.some 0, "", Option.none, "parent", []⟩ "foo").h
        ⟨2, Option.some 0, "", Option.none, "parent", []⟩ "foo").h
        (setName [] 3 [mkKNSpace Option.none]
          ⟨1, Option.some 0, "", Option.none, "parent", []⟩ "foo").e "").h 1 0 "foo" =
      GetR.ok Value.none := by decide

/-- C1 (amended): after E1 then E2 are both registered under the same
non-empty name in the same resolved namespace, the binding compares
equal to E2 (it is E2's weak proxy, not E2 itself); clearing E1's name
afterwards resets the binding to None, removing the displaced-occupant
E2's binding, because the clearing in setName is unconditional. -/
theorem c1_second_wins_then_clear_clobbers (w : List WObj) (fuel : Nat)
    (h : List NSpace) (e₁ e₂ : Entity) (n : Nat) (name : String)
    (hname : name ≠ "") (hn : n < h.length)
    (hr1 : (resolveK w fuel e₁).1 = Option.some n)
    (hr2 : (resolveK w fuel e₂).1 = Option.some n) :
    (setName w fuel h e₁ name).err = Option.none ∧
    (setName w fuel (setName w fuel h e₁ name).h e₂ name).err = Option.none ∧
    (∃ u, nsGetattr (setName w fuel (setName w fuel h e₁ name).h e₂ name).h
        1 n name = GetR.ok u ∧ pyEq u (Value.ent e₂.eid false) = true) ∧
    (setName w fuel (setName w fuel (setName w fuel h e₁ name).h e₂ name).h
        (setName w fuel h e₁ name).e "").err = Option.none ∧
    nsGetattr (setName w fuel (setName w fuel (setName w fuel h e₁ name).h
        e₂ name).h (setName w fuel h e₁ name).e "").h 1 n name =
      GetR.ok Value.none := by
  have hn1 : n < (setName w fuel h e₁ name).h.length := by
    rw [setName_length]
    exact hn
  have hn2 : n < (setName w fuel (setName w fuel h e₁ name).h e₂ name).h.length := by
    rw [setName_length]
    exact hn1
  have he1 : (setName w fuel h e₁ name).e = { (resolveK w fuel e₁).2 with _name := name } := by
    rw [setName_some w fuel h e₁ name n hr1 hname]
  obtain ⟨f1, f2, f3, f4, f5⟩ := resolveK_snd_fields w fuel e₁
  have hr3 : (resolveK w fuel (setName w fuel h e₁ name).e).1 = Option.some n := by
    rw [he1]
    rw [resolveK_fst_congr w fuel e₁ { (resolveK w fuel e₁).2 with _name := name }
      (by simp [f1]) (by simp [f2]) (by simp [f3])]
    exact hr1
  have hname1 : (setName w fuel h e₁ name).e._name = name := by
    rw [he1]
  refine ⟨?_, ?_, ?_, ?_, ?_⟩
  · rw [setName_some w fuel h e₁ name n hr1 hname]
  · rw [setName_some w fuel (setName w fuel h e₁ name).h e₂ name n hr2 hname]
  · rw [setName_some w fuel (setName w fuel h e₁ name).h e₂ name n hr2 hname]
    have hlen : n < (if e₂._name = "" then (setName w fuel h e₁ name).h
        else nsSetattr (setName w fuel h e₁ name).h fuel n e₂._name Value.none).length := by
      split
      · exact hn1
      · rw [nsSetattr_length]
        exact hn1
    rcases nsGetattr_nsSetattr_self
        (if e₂._name = "" then (setName w fuel h e₁ name).h
          else nsSetattr (setName w fuel h e₁ name).h fuel n e₂._name Value.none)
        fuel n name (Value.ent e₂.eid false) hlen with hm | hm
    · exact ⟨Value.ent e₂.eid false, hm, by simp [pyEq]⟩
    · exact ⟨Value.ent e₂.eid true, by simpa [proxyOf] using hm, by simp [pyEq]⟩
  · rw [setName_clear w fuel _ _ n hr3]
  · rw [setName_clear w fuel _ _ n hr3]
    simp only [hname1, if_neg hname]
    exact nsGetattr_nsSetattr_none _ fuel n name hn2

/-- C1 witness. -/
theorem c1_second_wins_then_clear_clobbers_witness :
    (∃ u, nsGetattr (setName [] 3 (setName [] 3 [mkKNSpace Option.none]
        ⟨1, Option.some 0, "", Option.none, "parent", []⟩ "foo").h
        ⟨2, Option.some 0, "", Option.none, "parent", []⟩ "foo").h 1 0 "foo" =
      GetR.ok u ∧ pyEq u (Value.ent 2 false) = true) ∧
    nsGetattr (setName [] 3 (setName [] 3 (setName [] 3 [mkKNSpace Option.none]
        ⟨1, Option.some 0, "", Option.none, "parent", []⟩ "foo").h
        ⟨2, Option.some 0, "", Option.none, "parent", []⟩ "foo").h
        (setName [] 3 [mkKNSpace Option.none]
          ⟨1, Option.some 0, "", Option.none, "parent", []⟩ "foo").e "").h 1 0 "foo" =
      GetR.ok Value.none := by
  have hmain := c1_second_wins_then_clear_clobbers [] 3 [mkKNSpace Option.none]
    ⟨1, Option.some 0, "", Option.none, "parent", []⟩
    ⟨2, Option.some 0, "", Option.none, "parent", []⟩ 0 "foo"
    (by decide) (by decide) (by decide) (by decide)
  exact ⟨hmain.2.2.1, hmain.2.2.2.2⟩

/-- A one-fuel lookup only inspects the entry at the queried index, so
heaps agreeing there give the same answer. -/
theorem nsGetattr_one_congr (h₁ h₂ : List NSpace) (i : Nat) (name : String)
    (hg : h₁[i]? = h₂[i]?) : nsGetattr h₁ 1 i name = nsGetattr h₂ 1 i name := by
  have e0 : ∀ (hh : List NSpace) (p : Nat), nsGetattr hh 0 p name = GetR.err :=
    fun _ _ => rfl
  unfold nsGetattr
  rw [hg]
  cases h₂[i]? with
  | none => rfl
  | some ns => simp [e0]

/-- C2 counterexample: entity 1 is named foo with old namespace at heap
index 1, where the name was meanwhile reassigned to entity 2 (the
binding holds entity 2's proxy).  Assigning entity 1 a new explicit
namespace (index 2) nevertheless resets the old binding to None,
contrary to the claimed occupant check. -/
theorem c2_counterexample :
    nsGetattr [mkKNSpace Option.none,
        ⟨[("foo", Value.ent 2 true)], [("parent", Value.none)], ["foo"]⟩,
        mkKNSpace Option.none] 1 1 "foo" = GetR.ok (Value.ent 2 true) ∧
    (setKnspace [] 3 [mkKNSpace Option.none,
        ⟨[("foo", Value.ent 2 true)], [("parent", Value.none)], ["foo"]⟩,
        mkKNSpace Option.none]
        ⟨1, Option.some 1, "foo", Option.some 1, "parent", []⟩
        (KnsArg.val (Option.some 2))).err = Option.none ∧
    nsGetattr (setKnspace [] 3 [mkKNSpace Option.none,
        ⟨[("foo", Value.ent 2 true)], [("parent", Value.none)], ["foo"]⟩,
        mkKNSpace Option.none]
        ⟨1, Option.some 1, "foo", Option.some 1, "parent", []⟩
        (KnsArg.val (Option.some 2))).h 1 1 "foo" = GetR.ok Value.none ∧
    GetR.ok Value.none ≠ GetR.ok (Value.ent 2 true) := by decide

/-- C2 (amended): for a named entity with resolved namespace at index
n, an explicit namespace change to index m clears the binding for its
name in the old namespace unconditionally, whatever the current
occupant there is (the occupant check exists only in the namespace
exchange callback, not in the knspace setter), and then registers the
entity under its name in the new namespace. -/
theorem c2_setKnspace_clears_unconditionally (w : List WObj) (fuel : Nat)
    (h : List NSpace) (e : Entity) (n m : Nat) (hname : e._name ≠ "")
    (hres : (resolveK w fuel e).1 = Option.some n) (hn : n < h.length)
    (hm : m < h.length) (hnm : n ≠ m) :
    (setKnspace w fuel h e (KnsArg.val (Option.some m))).err = Option.none ∧
    nsGetattr (setKnspace w fuel h e (KnsArg.val (Option.some m))).h 1 n
      e._name = GetR.ok Value.none ∧
    ∃ u, nsGetattr (setKnspace w fuel h e (KnsArg.val (Option.some m))).h 1 m
      e._name = GetR.ok u ∧ pyEq u (Value.ent e.eid false) = true := by
  rw [setKnspace_val w fuel h e n m hres hname]
  have hn1 : n < (nsSetattr h fuel n e._name Value.none).length := by
    rw [nsSetattr_length]
    exact hn
  have hm1 : m < (nsSetattr h fuel n e._name Value.none).length := by
    rw [nsSetattr_length]
    exact hm
  refine ⟨rfl, ?_, ?_⟩
  · rw [nsGetattr_one_congr _ (nsSetattr h fuel n e._name Value.none) n e._name
      (nsSetattr_getElem_ne _ fuel m n _ _ (fun hh => hnm hh.symm))]
    exact nsGetattr_nsSetattr_none h fuel n e._name hn
  · rcases nsGetattr_nsSetattr_self (nsSetattr h fuel n e._name Value.none)
        fuel m e._name (Value.ent e.eid false) hm1 with hmm | hmm
    · exact ⟨Value.ent e.eid false, hmm, by simp [pyEq]⟩
    · exact ⟨Value.ent e.eid true, by simpa [proxyOf] using hmm, by simp [pyEq]⟩

/-- C2 witness. -/
theorem c2_setKnspace_clears_unconditionally_witness :
    nsGetattr (setKnspace [] 3 [mkKNSpace Option.none,
        ⟨[("foo", Value.ent 2 true)], [("parent", Value.none)], ["foo"]⟩,
        mkKNSpace Option.none]
        ⟨1, Option.some 1, "foo", Option.some 1, "parent", []⟩
        (KnsArg.val (Option.some 2))).h 1 1 "foo" = GetR.ok Value.none ∧
    ∃ u, nsGetattr (setKnspace [] 3 [mkKNSpace Option.none,
        ⟨[("foo", Value.ent 2 true)], [("parent", Value.none)], ["foo"]⟩,
        mkKNSpace Option.none]
        ⟨1, Option.some 1, "foo", Option.some 1, "parent", []⟩
        (KnsArg.val (Option.some 2))).h 1 2 "foo" = GetR.ok u ∧
      pyEq u (Value.ent 1 false) = true := by
  have hmain := c2_setKnspace_clears_unconditionally [] 3
    [mkKNSpace Option.none,
      ⟨[("foo", Value.ent 2 true)], [("parent", Value.none)], ["foo"]⟩,
      mkKNSpace Option.none]
    ⟨1, Option.some 1, "foo", Option.some 1, "parent", []⟩ 1 2
    (by decide) (by decide) (by decide) (by decide) (by decide)
  exact ⟨hmain.2.1, hmain.2.2⟩

/-- C3 (confirmed): with no explicit override and a non-empty
knspace_key, resolution walks the structural chain with a tri-state
check: an ancestor exposing a knspace attribute stops the walk at once
and its value (even the Python None) is returned and cached; an
ancestor without the attribute passes the walk to its own structural
parent; an exhausted chain falls back to the module root namespace
(heap index 0), and any two entities whose chains are exhausted resolve
to that same reference-identical root. -/
theorem c3_tri_state_resolution (w : List WObj) (fuel : Nat) (e e₂ : Entity)
    (p : Nat) (o : WObj) (v : Option Nat)
    (hover : e._knspace = Option.none) (hkey : e.knspace_key ≠ "") :
    (w[p]? = Option.some o → o.kn = Option.some v →
      walkK w e.knspace_key (fuel + 1) (Option.some p) = WalkR.found v) ∧
    (w[p]? = Option.some o → o.kn = Option.none →
      walkK w e.knspace_key (fuel + 1) (Option.some p) =
        walkK w e.knspace_key fuel (alookup o.attrs e.knspace_key)) ∧
    (walkK w e.knspace_key fuel (alookup e.attrs e.knspace_key) = WalkR.found v →
      resolveK w fuel e = (v, { e with lastKnspace := v })) ∧
    (walkK w e.knspace_key fuel (alookup e.attrs e.knspace_key) = WalkR.exhausted →
      resolveK w fuel e =
        (Option.some 0, { e with lastKnspace := Option.some 0 })) ∧
    (walkK w e.knspace_key fuel (alookup e.attrs e.knspace_key) = WalkR.exhausted →
      e₂._knspace = Option.none → e₂.knspace_key ≠ "" →
      walkK w e₂.knspace_key fuel (alookup e₂.attrs e₂.knspace_key) =
        WalkR.exhausted →
      (resolveK w fuel e).1 = (resolveK w fuel e₂).1 ∧
        (resolveK w fuel e).1 = Option.some 0) := by
  refine ⟨?_, ?_, ?_, ?_, ?_⟩
  · intro hw hkn
    unfold walkK
    simp [hw, hkn]
  · intro hw hkn
    have hstep : walkK w e.knspace_key (fuel + 1) (Option.some p) =
        (match w[p]? with
          | Option.none => WalkR.exhausted
          | Option.some o =>
            match o.kn with
            | Option.some vv => WalkR.found vv
            | Option.none =>
              walkK w e.knspace_key fuel (alookup o.attrs e.knspace_key)) := rfl
    rw [hstep]
    simp [hw, hkn]
  · intro hwalk
    unfold resolveK
    simp [hover, hkey, hwalk]
  · intro hwalk
    unfold resolveK
    simp [hover, hkey, hwalk]
  · intro hwalk hover2 hkey2 hwalk2
    unfold resolveK
    simp [hover, hkey, hwalk, hover2, hkey2, hwalk2]

/-- C3 witness: world with object 0 exposing knspace None, object 1
exposing knspace at heap index 4, object 2 exposing nothing and linking
to object 1; entities with empty attribute lists exhaust at once. -/
theorem c3_tri_state_resolution_witness :
    walkK [⟨Option.some Option.none, []⟩, ⟨Option.some (Option.some 4), []⟩,
        ⟨Option.none, [("parent", 1)]⟩] "parent" 3 (Option.some 0) =
      WalkR.found Option.none ∧
    walkK [⟨Option.some Option.none, []⟩, ⟨Option.some (Option.some 4), []⟩,
        ⟨Option.none, [("parent", 1)]⟩] "parent" 3 (Option.some 2) =
      walkK [⟨Option.some Option.none, []⟩, ⟨Option.some (Option.some 4), []⟩,
        ⟨Option.none, [("parent", 1)]⟩] "parent" 2 (Option.some 1) ∧
    resolveK [⟨Option.some Option.none, []⟩, ⟨Option.some (Option.some 4), []⟩,
        ⟨Option.none, [("parent", 1)]⟩] 2
        ⟨7, Option.none, "", Option.none, "parent", []⟩ =
      (Option.some 0,
        ⟨7, Option.none, "", Option.some 0, "parent", []⟩) ∧
    (resolveK [⟨Option.some Option.none, []⟩, ⟨Option.some (Option.some 4), []⟩,
        ⟨Option.none, [("parent", 1)]⟩] 2
        ⟨7, Option.none, "", Option.none, "parent", []⟩).1 =
      (resolveK [⟨Option.some Option.none, []⟩, ⟨Option.some (Option.some 4), []⟩,
        ⟨Option.none, [("parent", 1)]⟩] 2
        ⟨8, Option.none, "", Option.some 9, "key2", []⟩).1 := by
  have h1 := c3_tri_state_resolution
    [⟨Option.some Option.none, []⟩, ⟨Option.some (Option.some 4), []⟩,
      ⟨Option.none, [("parent", 1)]⟩] 2
    ⟨7, Option.none, "", Option.none, "parent", []⟩
    ⟨8, Option.none, "", Option.some 9, "key2", []⟩
    0 ⟨Option.some Option.none, []⟩ Option.none (by decide) (by decide)
  have h2 := c3_tri_state_resolution
    [⟨Option.some Option.none, []⟩, ⟨Option.some (Option.some 4), []⟩,
      ⟨Option.none, [("parent", 1)]⟩] 2
    ⟨7, Option.none, "", Option.none, "parent", []⟩
    ⟨8, Option.none, "", Option.some 9, "key2", []⟩
    2 ⟨Option.none, [("parent", 1)]⟩ Option.none (by decide) (by decide)
  refine ⟨h1.1 (by decide) (by decide), ?_, h1.2.2.2.1 (by decide), ?_⟩
  · have := h2.2.1 (by decide) (by decide)
    simpa [alookup] using this
  · exact (h1.2.2.2.2 (by decide) (by decide) (by decide) (by decide)).1

/-- C4 (confirmed): a name set and then cleared on namespace C reads
back locally as the bound-to-nothing value None with a single unit of
fuel, hence without delegating to the parent even when the parent binds
the name; a name never seen locally (no slot, no plain attribute, no
class attribute) delegates the lookup to the parent namespace; and a
name absent along the entire parent chain raises the unresolved-name
AttributeError. -/
theorem c4_cleared_is_local_not_deleted (h : List NSpace) (fuel i : Nat)
    (name : String) (v : Value) (hi : i < h.length)
    (hca : classAttr name = Option.none) :
    nsGetattr (nsSetattr (nsSetattr h fuel i name v) fuel i name Value.none)
      1 i name = GetR.ok Value.none ∧
    (∀ ns p, h[i]? = Option.some ns → alookup ns.slots name = Option.none →
      alookup ns.plain name = Option.none →
      alookup ns.plain "parent" = Option.some (Value.nsp p) →
      nsGetattr h (fuel + 1) i name = nsGetattr h fuel p name) ∧
    (absentAll h fuel i name = true → nsGetattr h fuel i name = GetR.err) := by
  refine ⟨?_, ?_, ?_⟩
  · have hi1 : i < (nsSetattr h fuel i name v).length := by
      rw [nsSetattr_length]
      exact hi
    exact nsGetattr_nsSetattr_none (nsSetattr h fuel i name v) fuel i name hi1
  · intro ns p hg hs hp hparent
    conv =>
      lhs
      rw [nsGetattr]
    simp [hg, hs, hp, hca, hparent]
  · exact nsGetattr_of_absentAll h fuel i name

/-- C4 witness. -/
theorem c4_cleared_is_local_not_deleted_witness :
    nsGetattr (nsSetattr (nsSetattr [mkKNSpace Option.none,
        mkKNSpace (Option.some 0)] 2 1 "foo" (Value.ent 3 false)) 2 1 "foo"
      Value.none) 1 1 "foo" = GetR.ok Value.none ∧
    nsGetattr [mkKNSpace Option.none, mkKNSpace (Option.some 0)] 3 1 "foo" =
      nsGetattr [mkKNSpace Option.none, mkKNSpace (Option.some 0)] 2 0 "foo" ∧
    nsGetattr [mkKNSpace Option.none, mkKNSpace (Option.some 0)] 2 1 "foo" =
      GetR.err := by
  have hmain := c4_cleared_is_local_not_deleted
    [mkKNSpace Option.none, mkKNSpace (Option.some 0)] 2 1 "foo"
    (Value.ent 3 false) (by decide) (by decide)
  exact ⟨hmain.1,
    hmain.2.1 (mkKNSpace (Option.some 0)) 0 (by decide) (by decide) (by decide)
      (by decide),
    hmain.2.2 (by decide)⟩

/-- A locally unseen name (no slot, no plain attribute, no class
attribute) delegates the lookup to the parent namespace. -/
theorem nsGetattr_delegate (h : List NSpace) (fuel i p : Nat) (name : String)
    (ns : NSpace) (hg : h[i]? = Option.some ns)
    (hs : alookup ns.slots name = Option.none)
    (hp : alookup ns.plain name = Option.none)
    (hca : classAttr name = Option.none)
    (hpar : alookup ns.plain "parent" = Option.some (Value.nsp p)) :
    nsGetattr h (fuel + 1) i name = nsGetattr h fuel p name := by
  conv =>
    lhs
    rw [nsGetattr]
  simp [hg, hs, hp, hca, hpar]

/-- An index inside the original heap is unaffected by cloning. -/
theorem cloneNS_getElem_lt (h : List NSpace) (n j : Nat) (hj : j < h.length) :
    (cloneNS h n).1[j]? = h[j]? := by
  unfold cloneNS
  exact List.getElem?_append_left hj

/-- C6 (confirmed): clone() returns a fresh namespace whose parent is
reference-identical to the source and which has no entries of its own;
existing namespaces are untouched; a name not set on the clone (and not
a class attribute) resolves through the parent, a name absent on the
whole parent chain raises the unresolved-name error on the clone, and
setting a name on the clone leaves the source namespace unchanged. -/
theorem c6_clone_delegates (h : List NSpace) (n fuel : Nat) (name : String)
    (v : Value) (hn : n < h.length) (hca : classAttr name = Option.none) :
    (cloneNS h n).1[(cloneNS h n).2]? = Option.some (mkKNSpace (Option.some n)) ∧
    (∀ j, j < h.length → (cloneNS h n).1[j]? = h[j]?) ∧
    nsGetattr (cloneNS h n).1 (fuel + 1) (cloneNS h n).2 name =
      nsGetattr (cloneNS h n).1 fuel n name ∧
    (absentAll (cloneNS h n).1 fuel n name = true →
      nsGetattr (cloneNS h n).1 (fuel + 1) (cloneNS h n).2 name = GetR.err) ∧
    (nsSetattr (cloneNS h n).1 fuel (cloneNS h n).2 name v)[n]? = h[n]? := by
  have hnp : name ≠ "parent" := by
    intro hh
    rw [hh] at hca
    simp [classAttr] at hca
  have hclone : (cloneNS h n).1[(cloneNS h n).2]? =
      Option.some (mkKNSpace (Option.some n)) := by
    unfold cloneNS
    exact List.getElem?_concat_length h (mkKNSpace (Option.some n))
  have hdeleg : nsGetattr (cloneNS h n).1 (fuel + 1) (cloneNS h n).2 name =
      nsGetattr (cloneNS h n).1 fuel n name := by
    refine nsGetattr_delegate _ fuel _ n name (mkKNSpace (Option.some n)) hclone
      rfl ?_ hca ?_
    · simp [mkKNSpace, alookup, Ne.symm hnp]
    · simp [mkKNSpace, alookup]
  refine ⟨hclone, fun j hj => cloneNS_getElem_lt h n j hj, hdeleg, ?_, ?_⟩
  · intro habs
    rw [hdeleg]
    exact nsGetattr_of_absentAll _ fuel n name habs
  · have hne : (cloneNS h n).2 ≠ n := by
      unfold cloneNS
      omega
    rw [nsSetattr_getElem_ne _ fuel _ n name v hne]
    exact cloneNS_getElem_lt h n n hn

/-- C6 witness: the spec scenario with root R and clone B. -/
theorem c6_clone_delegates_witness :
    (cloneNS [mkKNSpace Option.none] 0).1[1]? =
      Option.some (mkKNSpace (Option.some 0)) ∧
    nsGetattr (cloneNS [mkKNSpace Option.none] 0).1 2 1 "widget1" =
      nsGetattr (cloneNS [mkKNSpace Option.none] 0).1 1 0 "widget1" ∧
    nsGetattr (cloneNS [mkKNSpace Option.none] 0).1 2 1 "widget1" = GetR.err ∧
    (nsSetattr (cloneNS [mkKNSpace Option.none] 0).1 1 1 "widget1"
      (Value.ent 9 false))[0]? = Option.some (mkKNSpace Option.none) := by
  have hmain := c6_clone_delegates [mkKNSpace Option.none] 0 1 "widget1"
    (Value.ent 9 false) (by decide) (by decide)
  exact ⟨hmain.1, hmain.2.2.1, hmain.2.2.2.1 (by decide), hmain.2.2.2.2⟩

/-- C10 counterexample: namespace at index 1 is a child of the root at
index 0, which binds foo; the one-argument property call (quiet defaults
to False) on the child raises instead of creating the slot, because the
base kivy property lookup raises for a missing property when quiet is
False. -/
theorem c10_counterexample :
    nsProperty [⟨[("foo", Value.ent 5 true)], [("parent", Value.none)], ["foo"]⟩,
      mkKNSpace (Option.some 0)] 1 "foo" false = Option.none := by decide

/-- C10 (amended): a property request with the quiet flag (as the class
itself uses internally) on a name with no local slot creates the
observable slot locally, initialized to None, recording the name; it
never consults the parent (the namespace record is rewritten only at
its own index), and afterwards a one-fuel lookup already returns the
local None, shadowing any parent binding for that name. -/
theorem c10_property_quiet_creates_local_shadow (h : List NSpace) (i : Nat)
    (name : String) (ns : NSpace) (hg : h[i]? = Option.some ns)
    (hs : alookup ns.slots name = Option.none) :
    nsProperty h i name true = Option.some (h.set i { ns with
      slots := aset ns.slots name Value.none
      hasApplied := name :: ns.hasApplied }) ∧
    nsGetattr (h.set i { ns with
      slots := aset ns.slots name Value.none
      hasApplied := name :: ns.hasApplied }) 1 i name = GetR.ok Value.none ∧
    (∀ j, j ≠ i → (h.set i { ns with
      slots := aset ns.slots name Value.none
      hasApplied := name :: ns.hasApplied })[j]? = h[j]?) := by
  have hi : i < h.length := by
    by_contra hcon
    push_neg at hcon
    rw [List.getElem?_eq_none hcon] at hg
    cases hg
  refine ⟨?_, ?_, ?_⟩
  · unfold nsProperty
    simp [hg, hs]
  · unfold nsGetattr
    simp [List.getElem?_set_eq_of_lt _ hi, alookup_aset_self]
  · intro j hj
    exact List.getElem?_set_ne (fun hh => hj hh.symm)

/-- C10 witness: the parent at index 0 binds foo to an entity; after the
quiet property request on the child at index 1, the child's lookup of
foo yields the local None instead of the parent's binding. -/
theorem c10_property_quiet_creates_local_shadow_witness :
    nsProperty [⟨[("foo", Value.ent 5 true)], [("parent", Value.none)], ["foo"]⟩,
      mkKNSpace (Option.some 0)] 1 "foo" true =
      Option.some [⟨[("foo", Value.ent 5 true)], [("parent", Value.none)], ["foo"]⟩,
        ⟨[("foo", Value.none)], [("parent", Value.nsp 0)], ["foo"]⟩] ∧
    nsGetattr [⟨[("foo", Value.ent 5 true)], [("parent", Value.none)], ["foo"]⟩,
      ⟨[("foo", Value.none)], [("parent", Value.nsp 0)], ["foo"]⟩] 1 1 "foo" =
      GetR.ok Value.none := by
  have hmain := c10_property_quiet_creates_local_shadow
    [⟨[("foo", Value.ent 5 true)], [("parent", Value.none)], ["foo"]⟩,
      mkKNSpace (Option.some 0)] 1 "foo" (mkKNSpace (Option.some 0))
    (by decide) (by decide)
  refine ⟨?_, ?_⟩
  · rw [hmain.1]
    decide
  · have h2 := hmain.2.1
    simpa [mkKNSpace, aset] using h2

/-- C8 counterexample: the root (index 0) binds foo in an observable
slot; the child namespace at index 1 has never seen foo.  The first set
of foo on the child stores a plain raw attribute and creates no
observable slot and records nothing in the converted-names set, because
hasattr sees foo through the parent chain. -/
theorem c8_counterexample :
    (nsSetattr [⟨[("foo", Value.ent 5 true)], [("parent", Value.none)], ["foo"]⟩,
        mkKNSpace (Option.some 0)] 3 1 "foo" (Value.ent 7 false))[1]? =
      Option.some ⟨[], [("parent", Value.nsp 0), ("foo", Value.ent 7 false)], []⟩ := by
  decide

/-- C8 (amended): the observable slot for a name is created at most
once per namespace and the converted-names set only grows: a set on an
existing slot reuses it (updating the value in place, keys intact, and
a quiet property request returns the heap unchanged); the first set
creates the slot and records the name only when the name is not
otherwise reachable as an attribute (locally, as a class attribute, or
through the parent chain); when it is reachable, the first set stores a
plain attribute and creates no slot. -/
theorem c8_slot_created_at_most_once (h : List NSpace) (fuel i : Nat)
    (name : String) (v : Value) (ns : NSpace)
    (hg : h[i]? = Option.some ns) :
    (∀ u, alookup ns.slots name = Option.some u →
      ∃ ns₂, (nsSetattr h fuel i name v)[i]? = Option.some ns₂ ∧
        ns₂.slots = aset ns.slots name (proxyOf v) ∧ ns₂.plain = ns.plain) ∧
    (∀ u, alookup ns.slots name = Option.some u →
      nsProperty h i name true = Option.some h) ∧
    (alookup ns.slots name = Option.none → nsHasattr h fuel i name = false →
      (nsSetattr h fuel i name v)[i]? = Option.some
        { ns with slots := aset ns.slots name (proxyOf v)
                  hasApplied := name :: ns.hasApplied }) ∧
    (alookup ns.slots name = Option.none → nsHasattr h fuel i name = true →
      (nsSetattr h fuel i name v)[i]? = Option.some
        { ns with plain := aset ns.plain name v }) ∧
    (∀ x, x ∈ ns.hasApplied → ∀ ns₂,
      (nsSetattr h fuel i name v)[i]? = Option.some ns₂ →
      x ∈ ns₂.hasApplied) := by
  have hi : i < h.length := by
    by_contra hcon
    push_neg at hcon
    rw [List.getElem?_eq_none hcon] at hg
    cases hg
  refine ⟨?_, ?_, ?_, ?_, ?_⟩
  · intro u hu
    unfold nsSetattr
    simp only [hg, hu]
    by_cases hm : name ∈ ns.hasApplied
    · refine ⟨{ ns with slots := aset ns.slots name (proxyOf v) }, ?_, rfl, rfl⟩
      simp [hm, List.getElem?_set_eq_of_lt _ hi]
    · refine ⟨{ ns with
          slots := aset ns.slots name (proxyOf v),
          hasApplied := name :: ns.hasApplied }, ?_, rfl, rfl⟩
      simp [hm, List.getElem?_set_eq_of_lt _ hi]
  · intro u hu
    unfold nsProperty
    simp [hg, hu]
  · intro hs0 hh
    unfold nsSetattr
    simp only [hg, hs0, hh, Bool.false_eq_true, if_false]
    exact List.getElem?_set_eq_of_lt _ hi
  · intro hs0 hh
    unfold nsSetattr
    simp only [hg, hs0, hh, if_true]
    exact List.getElem?_set_eq_of_lt _ hi
  · intro x hx ns₂ h₂
    unfold nsSetattr at h₂
    simp only [hg] at h₂
    cases hs0 : alookup ns.slots name with
    | none =>
      simp only [hs0] at h₂
      split at h₂ <;>
        · rw [List.getElem?_set_eq_of_lt _ hi] at h₂
          cases h₂
          first
            | exact hx
            | exact List.mem_cons_of_mem _ hx
    | some u =>
      simp only [hs0] at h₂
      split at h₂ <;>
        · rw [List.getElem?_set_eq_of_lt _ hi] at h₂
          cases h₂
          first
            | exact hx
            | exact List.mem_cons_of_mem _ hx

/-- C8 witness: updating an existing slot reuses it; a fresh unseen
name creates the slot once; the recorded set grows. -/
theorem c8_slot_created_at_most_once_witness :
    (∃ ns₂, (nsSetattr [⟨[("foo", Value.ent 5 true)], [("parent", Value.none)],
        ["foo"]⟩] 2 0 "foo" (Value.ent 7 false))[0]? = Option.some ns₂ ∧
      ns₂.slots = aset [("foo", Value.ent 5 true)] "foo"
        (proxyOf (Value.ent 7 false)) ∧
      ns₂.plain = [("parent", Value.none)]) ∧
    nsProperty [⟨[("foo", Value.ent 5 true)], [("parent", Value.none)], ["foo"]⟩]
      0 "foo" true =
      Option.some [⟨[("foo", Value.ent 5 true)], [("parent", Value.none)], ["foo"]⟩] ∧
    (nsSetattr [⟨[("foo", Value.ent 5 true)], [("parent", Value.none)], ["foo"]⟩]
        2 0 "bar" (Value.ent 7 false))[0]? = Option.some
      ⟨aset [("foo", Value.ent 5 true)] "bar" (proxyOf (Value.ent 7 false)),
        [("parent", Value.none)], ["bar", "foo"]⟩ := by
  have hmain := c8_slot_created_at_most_once
    [⟨[("foo", Value.ent 5 true)], [("parent", Value.none)], ["foo"]⟩] 2 0 "foo"
    (Value.ent 7 false)
    ⟨[("foo", Value.ent 5 true)], [("parent", Value.none)], ["foo"]⟩ (by decide)
  have hmain2 := c8_slot_created_at_most_once
    [⟨[("foo", Value.ent 5 true)], [("parent", Value.none)], ["foo"]⟩] 2 0 "bar"
    (Value.ent 7 false)
    ⟨[("foo", Value.ent 5 true)], [("parent", Value.none)], ["foo"]⟩ (by decide)
  exact ⟨hmain.1 (Value.ent 5 true) (by decide),
    hmain.2.1 (Value.ent 5 true) (by decide),
    hmain2.2.2.1 (by decide) (by decide)⟩

/-- C9 (confirmed): the namespace exchange callback is a no-op when the
new namespace is reference-identical to the cached one; otherwise it
updates the cache, stops for an anonymous entity, and for a named
entity registers it in the new namespace (when that is an actual
namespace) and then clears the binding in the previously cached
namespace exactly when the occupant read there still compares equal to
this entity. -/
theorem c9_exchange_cache_register_clear (h : List NSpace) (fuel : Nat)
    (e : Entity) (new : Option Nat) (m l : Nat) (occ : Value) :
    (e.lastKnspace = new → exchangeNspace h fuel e new = ⟨h, e, Option.none⟩) ∧
    (e.lastKnspace ≠ new →
      (exchangeNspace h fuel e new).e.lastKnspace = new) ∧
    (e.lastKnspace ≠ new → e._name = "" →
      exchangeNspace h fuel e new =
        ⟨h, { e with lastKnspace := new }, Option.none⟩) ∧
    (e.lastKnspace ≠ new → e._name ≠ "" → e.lastKnspace = Option.some l →
      new = Option.some m →
      nsGetattr (nsSetattr h fuel m e._name (Value.ent e.eid false)) fuel l
        e._name = GetR.ok occ →
      exchangeNspace h fuel e new =
        if pyEq (Value.ent e.eid false) occ then
          ⟨nsSetattr (nsSetattr h fuel m e._name (Value.ent e.eid false)) fuel l
              e._name Value.none, { e with lastKnspace := new }, Option.none⟩
        else
          ⟨nsSetattr h fuel m e._name (Value.ent e.eid false),
            { e with lastKnspace := new }, Option.none⟩) ∧
    (e.lastKnspace ≠ new → e._name ≠ "" → e.lastKnspace = Option.some l →
      new = Option.some m →
      nsGetattr (nsSetattr h fuel m e._name (Value.ent e.eid false)) fuel l
        e._name = GetR.ok occ →
      m < h.length → l ≠ m →
      ∃ u, nsGetattr (exchangeNspace h fuel e new).h 1 m e._name = GetR.ok u ∧
        pyEq u (Value.ent e.eid false) = true) ∧
    (e.lastKnspace ≠ new → e._name ≠ "" → e.lastKnspace = Option.some l →
      new = Option.some m →
      nsGetattr (nsSetattr h fuel m e._name (Value.ent e.eid false)) fuel l
        e._name = GetR.ok occ →
      pyEq (Value.ent e.eid false) occ = false → l ≠ m →
      (exchangeNspace h fuel e new).h[l]? = h[l]?) ∧
    (e.lastKnspace ≠ new → e._name ≠ "" → e.lastKnspace = Option.some l →
      new = Option.some m →
      nsGetattr (nsSetattr h fuel m e._name (Value.ent e.eid false)) fuel l
        e._name = GetR.ok occ →
      pyEq (Value.ent e.eid false) occ = true → l < h.length →
      nsGetattr (exchangeNspace h fuel e new).h 1 l e._name =
        GetR.ok Value.none) := by
  have hshape : e.lastKnspace ≠ new → e._name ≠ "" →
      e.lastKnspace = Option.some l → new = Option.some m →
      nsGetattr (nsSetattr h fuel m e._name (Value.ent e.eid false)) fuel l
        e._name = GetR.ok occ →
      exchangeNspace h fuel e new =
        if pyEq (Value.ent e.eid false) occ then
          ⟨nsSetattr (nsSetattr h fuel m e._name (Value.ent e.eid false)) fuel l
              e._name Value.none, { e with lastKnspace := new }, Option.none⟩
        else
          ⟨nsSetattr h fuel m e._name (Value.ent e.eid false),
            { e with lastKnspace := new }, Option.none⟩ := by
    intro hne hname hl hm hocc
    subst hm
    rw [hl] at hne
    unfold exchangeNspace
    simp only [hl, if_neg hne, hname, if_neg (fun hh : e._name = "" => hname hh),
      hocc]
    simp
  refine ⟨?_, ?_, ?_, hshape, ?_, ?_, ?_⟩
  · intro hid
    unfold exchangeNspace
    simp [hid]
  · intro hne
    unfold exchangeNspace
    simp only [if_neg hne]
    by_cases hnm : e._name = ""
    · simp [hnm]
    · simp only [hnm, if_neg (fun hh : e._name = "" => hnm hh)]
      cases new with
      | none =>
        cases hlast : e.lastKnspace with
        | none => simp
        | some l₂ =>
          cases hocc₂ : nsGetattr h fuel l₂ e._name with
          | err => simp [hocc₂]
          | ok u =>
            simp only [hocc₂]
            cases hb : pyEq (Value.ent e.eid false) u <;> simp [hb]
      | some m₂ =>
        cases hlast : e.lastKnspace with
        | none => simp
        | some l₂ =>
          cases hocc₂ : nsGetattr (nsSetattr h fuel m₂ e._name
              (Value.ent e.eid false)) fuel l₂ e._name with
          | err => simp [hocc₂]
          | ok u =>
            simp only [hocc₂]
            cases hb : pyEq (Value.ent e.eid false) u <;> simp [hb]
  · intro hne hnm
    unfold exchangeNspace
    simp [if_neg hne, hnm]
  · intro hne hname hl hm hocc hmlen hlm
    rw [hshape hne hname hl hm hocc]
    have hm1 : m < (nsSetattr h fuel m e._name (Value.ent e.eid false)).length := by
      rw [nsSetattr_length]
      exact hmlen
    have hreg := nsGetattr_nsSetattr_self h fuel m e._name
      (Value.ent e.eid false) hmlen
    cases hpy : pyEq (Value.ent e.eid false) occ with
    | true =>
      simp only [hpy, if_true]
      rw [nsGetattr_one_congr _ (nsSetattr h fuel m e._name (Value.ent e.eid false))
        m e._name (nsSetattr_getElem_ne _ fuel l m _ _ hlm)]
      rcases hreg with hr | hr
      · exact ⟨Value.ent e.eid false, hr, by simp [pyEq]⟩
      · exact ⟨Value.ent e.eid true, by simpa [proxyOf] using hr, by simp [pyEq]⟩
    | false =>
      simp only [hpy, Bool.false_eq_true, if_false]
      rcases hreg with hr | hr
      · exact ⟨Value.ent e.eid false, hr, by simp [pyEq]⟩
      · exact ⟨Value.ent e.eid true, by simpa [proxyOf] using hr, by simp [pyEq]⟩
  · intro hne hname hl hm hocc hpy hlm
    rw [hshape hne hname hl hm hocc]
    simp only [hpy, Bool.false_eq_true, if_false]
    exact nsSetattr_getElem_ne _ fuel m l _ _ (fun hh => hlm hh.symm)
  · intro hne hname hl hm hocc hpy hllen
    rw [hshape hne hname hl hm hocc]
    simp only [hpy, if_true]
    have hl1 : l < (nsSetattr h fuel m e._name (Value.ent e.eid false)).length := by
      rw [nsSetattr_length]
      exact hllen
    exact nsGetattr_nsSetattr_none _ fuel l e._name hl1

/-- C9 witness: entity 1 named w, cached namespace index 0 (which holds
its proxy), exchanged to namespace index 1: no-op when the new value is
the cached one; otherwise the entity is registered at index 1 and the
old binding at index 0, still occupied by the entity, is cleared. -/
theorem c9_exchange_cache_register_clear_witness :
    exchangeNspace [⟨[("w", Value.ent 1 true)], [("parent", Value.none)], ["w"]⟩,
        mkKNSpace Option.none] 2
      ⟨1, Option.none, "w", Option.some 0, "parent", []⟩ (Option.some 0) =
      ⟨[⟨[("w", Value.ent 1 true)], [("parent", Value.none)], ["w"]⟩,
        mkKNSpace Option.none],
        ⟨1, Option.none, "w", Option.some 0, "parent", []⟩, Option.none⟩ ∧
    (∃ u, nsGetattr (exchangeNspace
        [⟨[("w", Value.ent 1 true)], [("parent", Value.none)], ["w"]⟩,
          mkKNSpace Option.none] 2
        ⟨1, Option.none, "w", Option.some 0, "parent", []⟩ (Option.some 1)).h 1 1
        "w" = GetR.ok u ∧ pyEq u (Value.ent 1 false) = true) ∧
    nsGetattr (exchangeNspace
        [⟨[("w", Value.ent 1 true)], [("parent", Value.none)], ["w"]⟩,
          mkKNSpace Option.none] 2
        ⟨1, Option.none, "w", Option.some 0, "parent", []⟩ (Option.some 1)).h 1 0
        "w" = GetR.ok Value.none := by
  have hmain := c9_exchange_cache_register_clear
    [⟨[("w", Value.ent 1 true)], [("parent", Value.none)], ["w"]⟩,
      mkKNSpace Option.none] 2
    ⟨1, Option.none, "w", Option.some 0, "parent", []⟩ (Option.some 1) 1 0
    (Value.ent 1 true)
  have hmain0 := c9_exchange_cache_register_clear
    [⟨[("w", Value.ent 1 true)], [("parent", Value.none)], ["w"]⟩,
      mkKNSpace Option.none] 2
    ⟨1, Option.none, "w", Option.some 0, "parent", []⟩ (Option.some 0) 1 0
    (Value.ent 1 true)
  refine ⟨hmain0.1 (by decide), ?_, ?_⟩
  · exact hmain.2.2.2.2.1 (by decide) (by decide) (by decide) (by decide)
      (by decide) (by decide) (by decide)
  · exact hmain.2.2.2.2.2.2 (by decide) (by decide) (by decide) (by decide)
      (by decide) (by decide) (by decide)

example : nsGetattr [mkKNSpace Option.none] 2 0 "foo" = GetR.err := by decide

example :
    nsGetattr (nsSetattr [mkKNSpace Option.none] 2 0 "foo" (Value.ent 1 false))
      1 0 "foo" = GetR.ok (Value.ent 1 true) := by decide

example :
    nsGetattr ((cloneNS [mkKNSpace Option.none] 0).1) 2 1 "parent" =
      GetR.ok (Value.nsp 0) := by decide

end Cutils
